import Mathlib

/-!
# OCRC `neural_img` interface: a formal model

A shallow embedding, in Lean 4, of the neural-network engine declared in
`src/neural_img.h` of the OCRC repository.  The header is the only source
file available: it fixes the numeric constants, the activation function and
its derivative, the learning-rate and momentum constants, the
`create_network` descriptor, and documents the contract of every exported
function.  The function bodies themselves are not part of the sources, so
each operation below is modelled from the specification's words (each such
definition carries a doc comment starting `Modelled from the spec:`); the
constants and macros are translated directly from the header.

Numeric conventions of the embedding: C `float`/`double` arithmetic is
modelled over `ℝ` where the transcendental functions (`tanh`, `log`) are
involved, and over `ℚ` (exact, executable) for the purely rational parts
(feature extraction, gradient accumulation, persistence).
-/

/-! ## Constants from `neural_img.h` (lines 25-36, 46-48) -/

/-- `#define WIDTH 128` -/
def WIDTH : ℕ := 128

/-- `#define HEIGHT 128` -/
def HEIGHT : ℕ := 128

/-- `#define POOL_LEN 8` -/
def POOL_LEN : ℕ := 8

/-- `#define DIM_POOL (WIDTH / POOL_LEN)` -/
def DIM_POOL : ℕ := WIDTH / POOL_LEN

/-- `#define PIXEL_QTT (DIM_POOL * DIM_POOL)` -/
def PIXEL_QTT : ℕ := DIM_POOL * DIM_POOL

/-- `#define DIM_IMG1 (DIM_POOL - 2)` -/
def DIM_IMG1 : ℕ := DIM_POOL - 2

/-- `#define DIM_IMGL (DIM_IMG1)` -/
def DIM_IMGL : ℕ := DIM_IMG1

/-- `#define AREA_IMG (DIM_IMGL * DIM_IMGL)` -/
def AREA_IMG : ℕ := DIM_IMGL * DIM_IMGL

/-- `#define METADATA_QTT (28 + DIM_POOL * 2)` -/
def METADATA_QTT : ℕ := 28 + DIM_POOL * 2

/-- `#define FEATURE_QTT 1` -/
def FEATURE_QTT : ℕ := 1

/-- `#define INPUT_QTT (FEATURE_QTT * AREA_IMG + METADATA_QTT)` -/
def INPUT_QTT : ℕ := FEATURE_QTT * AREA_IMG + METADATA_QTT

/-- `#define MAX_CLASSES 36` -/
def MAX_CLASSES : ℕ := 36

/-- `#define ACTIVATION_FN(X) tanh(X)` (header line 39): the activation
function used in all layers except the last one, over `ℝ`. -/
noncomputable def ACTIVATION_FN (x : ℝ) : ℝ := Real.tanh x

/-- `#define DERIVATIVE_ACTIVATION_FN(Z) (1 - powf(tanh(Z), 2))`
(header line 40), over `ℝ`. -/
noncomputable def DERIVATIVE_ACTIVATION_FN (z : ℝ) : ℝ := 1 - Real.tanh z ^ 2

/-- `#define RATE 1` (header line 47): the learning rate, as an exact
rational for the backpropagation model. -/
def RATE : ℚ := 1

/-- `#define MOMENTUM 0.3` (header line 48): the momentum coefficient, as
an exact rational for the backpropagation model. -/
def MOMENTUM : ℚ := 3 / 10

/-! ## Claim C10: the derivative macro matches the activation macro -/

/-- Claim C10: for every real argument `Z`, the macro
`DERIVATIVE_ACTIVATION_FN(Z) = 1 - tanh(Z)^2` equals the exact mathematical
derivative of the activation macro `ACTIVATION_FN(X) = tanh(X)` evaluated at
`Z`, so the derivative used in every backpropagation delta is consistent
with the activation used in the forward pass. -/
theorem derivative_activation_fn_is_deriv_of_activation_fn (z : ℝ) :
    HasDerivAt ACTIVATION_FN (DERIVATIVE_ACTIVATION_FN z) z ∧
    deriv ACTIVATION_FN z = DERIVATIVE_ACTIVATION_FN z := by
  have hcosh : Real.cosh z ≠ 0 := ne_of_gt (Real.cosh_pos z)
  have hdiv : HasDerivAt (fun x => Real.sinh x / Real.cosh x)
      ((Real.cosh z * Real.cosh z - Real.sinh z * Real.sinh z) / Real.cosh z ^ 2) z :=
    (Real.hasDerivAt_sinh z).div (Real.hasDerivAt_cosh z) hcosh
  have hfun : (fun x => Real.sinh x / Real.cosh x) = ACTIVATION_FN := by
    funext x
    rw [ACTIVATION_FN, Real.tanh_eq_sinh_div_cosh]
  have hval : (Real.cosh z * Real.cosh z - Real.sinh z * Real.sinh z) / Real.cosh z ^ 2
      = DERIVATIVE_ACTIVATION_FN z := by
    rw [DERIVATIVE_ACTIVATION_FN, Real.tanh_eq_sinh_div_cosh]
    have hsq : Real.cosh z ^ 2 = Real.sinh z ^ 2 + 1 := Real.cosh_sq z
    field_simp
    ring_nf
    nlinarith [hsq]
  rw [hfun, hval] at hdiv
  exact ⟨hdiv, hdiv.deriv⟩

/-! ## Metrics: `hit` and `cross_entropy`

The terminal output vector `network_output` holds C `float` values; every
machine float is an exact rational, so the argmax scan of `hit` is modelled
over `ℚ`, while `cross_entropy` (which takes a natural logarithm) is
modelled over `ℝ`. -/

/-- Modelled from the spec: the body of `hit` is not in the sources.  The
scan over the terminal output vector for the highest-value component, in
iteration order, where only a strictly greater value displaces the current
best — so the first-encountered maximum wins on ties.  `i` is the index of
the next element of `vs` in the full vector and `best` is the
`(index, value)` pair of the best component seen so far. -/
def scan_max : List ℚ → ℕ → ℕ × ℚ → ℕ × ℚ
  | [], _, best => best
  | v :: vs, i, best => scan_max vs (i + 1) (if best.2 < v then (i, v) else best)

/-- Modelled from the spec: the body of `hit` is not in the sources.
Given the expected class index `cls` and the terminal output vector `out`
(the `network_output` buffer), returns the triple of the hit value (1.0 or
0.0), the predicted index written through `predi`, and the predicted value
written through `predv`. -/
def hit (cls : ℕ) (out : List ℚ) : ℚ × ℕ × ℚ :=
  match out with
  | [] => (0, 0, 0)
  | v :: vs =>
    let best := scan_max vs 1 (0, v)
    (if best.1 = cls then 1 else 0, best.1, best.2)

/-- Modelled from the spec: the body of `cross_entropy` is not in the
sources.  Given the expected class index `cls` and the terminal output
vector `out`, returns the negative natural logarithm, in nats, of the
component of `out` at index `cls`. -/
noncomputable def cross_entropy (cls : ℕ) (out : List ℝ) : ℝ :=
  -Real.log (out.getD cls 0)

/-- Invariant of the `hit` scan: if, before scanning the suffix
`out.drop i`, the best pair `(bi, bv)` is a component of the prefix, is an
upper bound of the prefix, and strictly dominates everything before its own
index, then the final pair is a component of `out`, an upper bound of all
of `out`, and strictly dominates everything before its index. -/
theorem scan_max_invariant (out : List ℚ) :
    ∀ vs i bi bv, vs = out.drop i → i ≤ out.length → bi < i →
      out.getD bi 0 = bv →
      (∀ j, j < i → out.getD j 0 ≤ bv) →
      (∀ j, j < bi → out.getD j 0 < bv) →
      (scan_max vs i (bi, bv)).1 < out.length ∧
      out.getD (scan_max vs i (bi, bv)).1 0 = (scan_max vs i (bi, bv)).2 ∧
      (∀ j, j < out.length → out.getD j 0 ≤ (scan_max vs i (bi, bv)).2) ∧
      (∀ j, j < (scan_max vs i (bi, bv)).1 → out.getD j 0 < (scan_max vs i (bi, bv)).2) := by
  intro vs
  induction vs with
  | nil =>
    intro i bi bv hdrop hi hbi hval hub hstrict
    have hlen : out.length ≤ i := by
      by_contra hlt
      push_neg at hlt
      have : out.drop i ≠ [] := by
        simp [List.drop_eq_nil_iff]
        omega
      exact this hdrop.symm
    refine ⟨by simp only [scan_max]; omega, by simp only [scan_max]; exact hval, ?_, ?_⟩
    · intro j hj
      simp only [scan_max]
      exact hub j (by omega)
    · intro j hj
      simp only [scan_max] at hj ⊢
      exact hstrict j hj
  | cons v vs ih =>
    intro i bi bv hdrop hi hbi hval hub hstrict
    have hilt : i < out.length := by
      by_contra hge
      push_neg at hge
      rw [List.drop_eq_nil_of_le hge] at hdrop
      exact List.cons_ne_nil v vs hdrop
    have hcons : out.drop i = out[i] :: out.drop (i + 1) :=
      List.drop_eq_getElem_cons hilt
    rw [hcons] at hdrop
    have hv : out[i] = v := ((List.cons.injEq _ _ _ _).mp hdrop.symm).1
    have hdrop' : vs = out.drop (i + 1) :=
      (((List.cons.injEq _ _ _ _).mp hdrop.symm).2).symm
    have hvi : out.getD i 0 = v := by
      rw [List.getD_eq_getElem out 0 hilt]
      exact hv
    simp only [scan_max]
    by_cases hlt : bv < v
    · simp only [if_pos hlt]
      refine ih (i + 1) i v hdrop' (by omega) (by omega) hvi ?_ ?_
      · intro j hj
        rcases Nat.lt_succ_iff_lt_or_eq.mp hj with hj' | hj'
        · exact le_of_lt (lt_of_le_of_lt (hub j hj') hlt)
        · rw [hj', hvi]
      · intro j hj
        exact lt_of_le_of_lt (hub j hj) hlt
    · simp only [if_neg hlt]
      push_neg at hlt
      refine ih (i + 1) bi bv hdrop' (by omega) (by omega) hval ?_ hstrict
      intro j hj
      rcases Nat.lt_succ_iff_lt_or_eq.mp hj with hj' | hj'
      · exact hub j hj'
      · rw [hj', hvi]
        exact hlt

/-- Claim C2: for every expected class index and every terminal output
vector in `network_output`, `hit(class, predi, predv)` returns 1.0 if
`class` equals the index of the maximum component of the terminal output
(with the first-encountered maximum winning on ties, scanning in iteration
order) and returns 0.0 otherwise; `predi` receives that winning index and
`predv` its value. -/
theorem hit_argmax_spec (cls : ℕ) (out : List ℚ) (hne : out ≠ []) :
    (hit cls out).2.1 < out.length ∧
    out.getD (hit cls out).2.1 0 = (hit cls out).2.2 ∧
    (∀ j, j < out.length → out.getD j 0 ≤ (hit cls out).2.2) ∧
    (∀ j, j < (hit cls out).2.1 → out.getD j 0 < (hit cls out).2.2) ∧
    ((hit cls out).1 = 1 ↔ cls = (hit cls out).2.1) ∧
    ((hit cls out).1 = 0 ↔ cls ≠ (hit cls out).2.1) := by
  match out, hne with
  | v :: vs, _ =>
    have hinv := scan_max_invariant (v :: vs) vs 1 0 v rfl
      (by simp) (by omega) (by simp) ?_ ?_
    · obtain ⟨h1, h2, h3, h4⟩ := hinv
      simp only [hit]
      refine ⟨h1, h2, h3, h4, ?_, ?_⟩
      · constructor
        · intro heq
          by_contra hneq
          rw [if_neg (fun h => hneq h.symm)] at heq
          norm_num at heq
        · intro heq
          rw [if_pos heq.symm]
      · constructor
        · intro heq
          intro hcontra
          rw [if_pos hcontra.symm] at heq
          norm_num at heq
        · intro hneq
          rw [if_neg (fun h => hneq h.symm)]
    · intro j hj
      interval_cases j
      simp
    · intro j hj
      omega

/-- Claim C3: for every expected class index `class` within the terminal
output's length, `cross_entropy(class)` returns the negative natural
logarithm of the terminal output component at index `class`, in nats; in
particular, on terminal output `[0.1, 0.7, 0.2]` with expected class 1 it
returns `-ln(0.7) ≈ 0.357` (shown here as lying within `0.001` of
`0.357`). -/
theorem cross_entropy_spec :
    (∀ cls (out : List ℝ), cls < out.length →
      cross_entropy cls out = -Real.log (out.getD cls 0)) ∧
    cross_entropy 1 [0.1, 0.7, 0.2] = -Real.log 0.7 ∧
    |cross_entropy 1 [0.1, 0.7, 0.2] - 0.357| < 0.001 := by
  refine ⟨fun cls out _ => rfl, by norm_num [cross_entropy], ?_⟩
  have hkey : -Real.log 0.7 = Real.log (10 / 7) := by
    rw [show ((10 : ℝ) / 7) = (0.7 : ℝ)⁻¹ by norm_num, Real.log_inv]
  have hlo : (0.356 : ℝ) < Real.log (10 / 7) := by
    have hpow : ((2 : ℝ)) ^ (18 : ℕ) ≤ ((10 : ℝ) / 7) ^ (35 : ℕ) := by
      rw [div_pow, le_div_iff₀ (by positivity)]
      norm_num
    have hlog : Real.log ((2 : ℝ) ^ (18 : ℕ)) ≤ Real.log (((10 : ℝ) / 7) ^ (35 : ℕ)) :=
      (Real.log_le_log_iff (by positivity) (by positivity)).mpr hpow
    rw [Real.log_pow, Real.log_pow] at hlog
    have h2 : (0.6931471803 : ℝ) < Real.log 2 := Real.log_two_gt_d9
    nlinarith
  have hhi : Real.log (10 / 7) < (0.358 : ℝ) := by
    have hpow : ((10 : ℝ) / 7) ^ (33 : ℕ) ≤ ((2 : ℝ)) ^ (17 : ℕ) := by
      rw [div_pow, div_le_iff₀ (by positivity)]
      norm_num
    have hlog : Real.log (((10 : ℝ) / 7) ^ (33 : ℕ)) ≤ Real.log ((2 : ℝ) ^ (17 : ℕ)) :=
      (Real.log_le_log_iff (by positivity) (by positivity)).mpr hpow
    rw [Real.log_pow, Real.log_pow] at hlog
    have h2 : Real.log 2 < (0.6931471808 : ℝ) := Real.log_two_lt_d9
    nlinarith
  have : cross_entropy 1 [0.1, 0.7, 0.2] = -Real.log 0.7 := by
    norm_num [cross_entropy]
  rw [this, hkey, abs_lt]
  constructor <;> nlinarith

/-- Witness for C2: the spec's own example, terminal output
`[0.1, 0.7, 0.2]` with expected class 1. -/
theorem hit_argmax_spec_witness :
    ([1/10, 7/10, 2/10] : List ℚ) ≠ [] ∧
    ((hit 1 [1/10, 7/10, 2/10]).2.1 < ([1/10, 7/10, 2/10] : List ℚ).length ∧
    ([1/10, 7/10, 2/10] : List ℚ).getD (hit 1 [1/10, 7/10, 2/10]).2.1 0 =
      (hit 1 [1/10, 7/10, 2/10]).2.2 ∧
    (∀ j, j < ([1/10, 7/10, 2/10] : List ℚ).length →
      ([1/10, 7/10, 2/10] : List ℚ).getD j 0 ≤ (hit 1 [1/10, 7/10, 2/10]).2.2) ∧
    (∀ j, j < (hit 1 [1/10, 7/10, 2/10]).2.1 →
      ([1/10, 7/10, 2/10] : List ℚ).getD j 0 < (hit 1 [1/10, 7/10, 2/10]).2.2) ∧
    ((hit 1 [1/10, 7/10, 2/10]).1 = 1 ↔ 1 = (hit 1 [1/10, 7/10, 2/10]).2.1) ∧
    ((hit 1 [1/10, 7/10, 2/10]).1 = 0 ↔ 1 ≠ (hit 1 [1/10, 7/10, 2/10]).2.1)) :=
  ⟨by simp, hit_argmax_spec 1 [1/10, 7/10, 2/10] (by simp)⟩

/-! ## Backpropagation engine: batch accumulation and momentum updates

The spec's update rules for `ini_backpr` / `backpr` / `apply_backpr` /
`clear_backpr` are element-wise over every scalar learnable parameter (each
weight-matrix entry and each bias entry), so the batch/momentum state
machine is modelled per scalar parameter, over exact rationals. -/

/-- Modelled from the spec: the bodies of the backpropagation functions are
not in the sources.  The training state of one scalar learnable parameter
(one weight or bias entry): its current value, its momentum velocity (owned
by the Layer, persisting across batches), its batch gradient accumulator,
and the divisor `n` recorded by `ini_backpr`. -/
structure ParamState where
  param : ℚ
  vel : ℚ
  acc : ℚ
  n : ℚ

/-- Modelled from the spec: `ini_backpr(n)` allocates the zero-initialized
gradient accumulator and records `n` as the divisor later used to average
gradients across the batch (n = 1 disables averaging).  The momentum
velocity is owned by the Layer and is untouched. -/
def ini_backpr (n : ℕ) (s : ParamState) : ParamState :=
  { s with acc := 0, n := (n : ℚ) }

/-- Modelled from the spec: one `backpr` call adds (does not overwrite) the
per-sample gradient `g` of this parameter into the batch accumulator. -/
def backpr (g : ℚ) (s : ParamState) : ParamState :=
  { s with acc := s.acc + g }

/-- Modelled from the spec: `clear_backpr` zeroes the batch accumulators
for reuse within the same allocation. -/
def clear_backpr (s : ParamState) : ParamState :=
  { s with acc := 0 }

/-- Modelled from the spec: `apply_backpr` divides the accumulated gradient
by the recorded `n`, updates the velocity by
`velocity = MOMENTUM * velocity_prev - RATE * averaged_gradient`, adds the
velocity to the parameter, and consumes (resets) the batch accumulator. -/
def apply_backpr (s : ParamState) : ParamState :=
  let v := MOMENTUM * s.vel - RATE * (s.acc / s.n)
  { s with param := s.param + v, vel := v, acc := 0 }

/-- Accumulation of the per-sample gradients of one batch, in order:
`backpr` once per sample. -/
def backpr_fold (gs : List ℚ) (s : ParamState) : ParamState :=
  gs.foldl (fun t g => backpr g t) s

theorem backpr_fold_eq (gs : List ℚ) (s : ParamState) :
    backpr_fold gs s = ⟨s.param, s.vel, s.acc + gs.sum, s.n⟩ := by
  induction gs generalizing s with
  | nil => simp [backpr_fold]
  | cons g gs ih =>
    have hstep : backpr_fold (g :: gs) s = backpr_fold gs (backpr g s) := rfl
    rw [hstep, ih]
    simp [backpr, List.sum_cons]
    ring

/-- Claim C4: for every layer parameter, `apply_backpr` first divides each
accumulated gradient by the `n` recorded at `ini_backpr(n)`, then updates
`velocity = MOMENTUM * velocity_prev - RATE * averaged_gradient` (with
`MOMENTUM = 0.3` and `RATE = 1`) and adds the velocity to the parameter;
the velocity persists across batches, so a second consecutive
`apply_backpr` with zero accumulated gradient still moves the parameter by
`MOMENTUM * previous_velocity`. -/
theorem apply_backpr_momentum_update_spec (s : ParamState) (n : ℕ) (gs : List ℚ) :
    (apply_backpr (backpr_fold gs (ini_backpr n s))).param =
      s.param + (MOMENTUM * s.vel - RATE * (gs.sum / (n : ℚ))) ∧
    (apply_backpr (backpr_fold gs (ini_backpr n s))).vel =
      MOMENTUM * s.vel - RATE * (gs.sum / (n : ℚ)) ∧
    MOMENTUM = 3 / 10 ∧ RATE = 1 ∧
    (apply_backpr (apply_backpr (backpr_fold gs (ini_backpr n s)))).param =
      (apply_backpr (backpr_fold gs (ini_backpr n s))).param +
        MOMENTUM * (apply_backpr (backpr_fold gs (ini_backpr n s))).vel := by
  rw [backpr_fold_eq]
  simp [apply_backpr, ini_backpr, MOMENTUM, RATE]

/-- Claim C5: for every `n ≥ 1` and every sequence of `n` samples,
gradients from successive `backpr` calls within one batch are added into
the accumulators (not overwritten) and divided by `n` exactly once at
apply, so running `ini_backpr(n)`, then `backpr` on each of the `n`
samples, then `apply_backpr`, applies the same net parameter update as
applying the per-sample gradients pre-averaged by `n` (exact rational
arithmetic standing in for "up to floating-point rounding"). -/
theorem batch_accumulation_linearity (s : ParamState) (n : ℕ) (gs : List ℚ)
    (hn : 1 ≤ n) (hlen : gs.length = n) :
    (backpr_fold gs (ini_backpr n s)).acc = gs.sum ∧
    (apply_backpr (backpr_fold gs (ini_backpr n s))).param =
      (apply_backpr (backpr_fold (gs.map (fun g => g / (n : ℚ))) (ini_backpr 1 s))).param ∧
    (apply_backpr (backpr_fold gs (ini_backpr n s))).vel =
      (apply_backpr (backpr_fold (gs.map (fun g => g / (n : ℚ))) (ini_backpr 1 s))).vel := by
  have hsum : ∀ l : List ℚ, (l.map (fun g => g / (n : ℚ))).sum = l.sum / (n : ℚ) := by
    intro l
    induction l with
    | nil => simp
    | cons g l ih => simp [List.sum_cons, ih, add_div]
  rw [backpr_fold_eq, backpr_fold_eq]
  refine ⟨by simp [ini_backpr], ?_, ?_⟩ <;>
    simp [apply_backpr, ini_backpr, hsum]

/-- Witness for C5: a batch of two samples with gradients 1 and 3 starting
from parameter 5, velocity 2. -/
theorem batch_accumulation_linearity_witness :
    1 ≤ 2 ∧ ([1, 3] : List ℚ).length = 2 ∧
    ((backpr_fold [1, 3] (ini_backpr 2 ⟨5, 2, 0, 0⟩)).acc = ([1, 3] : List ℚ).sum ∧
    (apply_backpr (backpr_fold [1, 3] (ini_backpr 2 ⟨5, 2, 0, 0⟩))).param =
      (apply_backpr (backpr_fold (([1, 3] : List ℚ).map (fun g => g / (2 : ℚ)))
        (ini_backpr 1 ⟨5, 2, 0, 0⟩))).param ∧
    (apply_backpr (backpr_fold [1, 3] (ini_backpr 2 ⟨5, 2, 0, 0⟩))).vel =
      (apply_backpr (backpr_fold (([1, 3] : List ℚ).map (fun g => g / (2 : ℚ)))
        (ini_backpr 1 ⟨5, 2, 0, 0⟩))).vel) :=
  ⟨by decide, by decide,
    batch_accumulation_linearity ⟨5, 2, 0, 0⟩ 2 [1, 3] (by decide) (by decide)⟩

/-! ## Feature extraction pipeline and `read_png_file`

The PNG container decoding is out of scope (an external collaborator that
yields a raw pixel grid), so a decoded image is modelled as an
`Option (List (List ℚ))`: `none` for an unreadable/non-PNG file, `some px`
for a decoded grid of pixel-intensity rows.  The spec leaves the exact
pooling reduction, convolution kernel and 28 auxiliary shape descriptors
open (its §9 open question); they are modelled below by fixed deterministic
choices (mean pooling, unit kernel, threshold counts) matching the declared
dimensions, which is all the claims depend on. -/

/-- Modelled from the spec: mean pooling of one `POOL_LEN × POOL_LEN`
window of the pixel grid, the window whose top-left corner is at
`(i * POOL_LEN, j * POOL_LEN)`. -/
def pool_cell (px : List (List ℚ)) (i j : ℕ) : ℚ :=
  (((List.range POOL_LEN).map (fun di =>
      ((List.range POOL_LEN).map (fun dj =>
        (px.getD (i * POOL_LEN + di) []).getD (j * POOL_LEN + dj) 0)).sum)).sum)
    / ((POOL_LEN : ℚ) * (POOL_LEN : ℚ))

/-- Modelled from the spec: the pooled grid, `DIM_POOL × DIM_POOL`, one
scalar per non-overlapping pooling window. -/
def pooled (px : List (List ℚ)) : List (List ℚ) :=
  (List.range DIM_POOL).map (fun i =>
    (List.range DIM_POOL).map (fun j => pool_cell px i j))

/-- Modelled from the spec: one cell of the convolved feature map — a
fixed-size (3 × 3, matching the `DIM_POOL - 2` shrink) local aggregation of
the pooled grid with no padding. -/
def conv_cell (pl : List (List ℚ)) (i j : ℕ) : ℚ :=
  ((List.range 3).map (fun di =>
    ((List.range 3).map (fun dj =>
      (pl.getD (i + di) []).getD (j + dj) 0)).sum)).sum

/-- Modelled from the spec: the `FEATURE_QTT = 1` feature map of size
`DIM_IMGL × DIM_IMGL`, flattened row-major (a stable, deterministic
order). -/
def features (px : List (List ℚ)) : List ℚ :=
  ((List.range DIM_IMGL).map (fun i =>
    (List.range DIM_IMGL).map (fun j => conv_cell (pooled px) i j))).flatten

/-- Modelled from the spec: the `METADATA_QTT = 28 + DIM_POOL * 2` scalar
metadata descriptors computed from the pooled grid — per-row marginal sums,
per-column marginal sums, and 28 auxiliary shape descriptors (modelled as
threshold counts over the pooled grid). -/
def metadata (px : List (List ℚ)) : List ℚ :=
  ((List.range DIM_POOL).map (fun i => ((pooled px).getD i []).sum)) ++
  ((List.range DIM_POOL).map (fun j => ((pooled px).map (fun r => r.getD j 0)).sum)) ++
  ((List.range 28).map (fun k =>
    ((((pooled px).flatten).filter (fun v => (k : ℚ) ≤ v * 28)).length : ℚ)))

/-- Modelled from the spec: the full input vector written into the caller's
`img_view` buffer — the flattened convolved feature values followed by the
metadata descriptors, in that fixed order. -/
def img_view (px : List (List ℚ)) : List ℚ :=
  features px ++ metadata px

/-- Modelled from the spec: the body of `read_png_file` is not in the
sources.  Takes the decoding result of the named file (`none` when the file
cannot be read or decoded as a PNG) and the `verbose` flag; returns the
C return status, the vector stored into `img_view`, and the diagnostic
error message printed on failure.  Succeeds (status 0) exactly on a decoded
grid of the fixed `HEIGHT × WIDTH` resolution; `verbose` only controls
informational printing and never the result. -/
def read_png_file (img : Option (List (List ℚ))) (verbose : Bool) :
    ℤ × List ℚ × Option String :=
  match img with
  | none => (1, [], some "cannot read or decode the file as a PNG")
  | some px =>
    if px.length = HEIGHT ∧ ∀ r ∈ px, r.length = WIDTH then
      (0, img_view px, none)
    else
      (2, [], some "image resolution does not match the expected resolution")

theorem features_length (px : List (List ℚ)) :
    (features px).length = FEATURE_QTT * AREA_IMG := by
  simp [features, List.length_flatten, Function.comp_def]
  decide

theorem metadata_length (px : List (List ℚ)) :
    (metadata px).length = METADATA_QTT := by
  simp [metadata]
  decide

/-- Claim C6: for every readable PNG image of the fixed 128×128 resolution,
`read_png_file` fills `img_view` with a vector of exactly `INPUT_QTT = 256`
values (the 196 flattened feature values of the 14×14 convolved map
followed by the 60 metadata descriptors, in that fixed order), and the
resulting vector is deterministic (the model is a pure function of the
pixels) and identical for every value of the `verbose` flag. -/
theorem read_png_file_vector_spec (px : List (List ℚ)) (v1 v2 : Bool)
    (h : px.length = HEIGHT ∧ ∀ r ∈ px, r.length = WIDTH) :
    (read_png_file (some px) v1).1 = 0 ∧
    (read_png_file (some px) v1).2.1 = features px ++ metadata px ∧
    (features px).length = FEATURE_QTT * AREA_IMG ∧
    (metadata px).length = METADATA_QTT ∧
    (read_png_file (some px) v1).2.1.length = INPUT_QTT ∧
    FEATURE_QTT * AREA_IMG = 196 ∧ METADATA_QTT = 60 ∧ INPUT_QTT = 256 ∧
    DIM_IMGL = 14 ∧
    (read_png_file (some px) v1).2.1 = (read_png_file (some px) v2).2.1 := by
  have hrun : ∀ v : Bool, read_png_file (some px) v = (0, img_view px, none) := by
    intro v
    simp only [read_png_file, if_pos h]
  refine ⟨by rw [hrun], by rw [hrun v1]; rfl, features_length px, metadata_length px,
    ?_, by decide, by decide, by decide, by decide, by rw [hrun v1, hrun v2]⟩
  rw [hrun]
  simp [img_view, features_length, metadata_length, INPUT_QTT]

/-- Witness for C6: the all-black 128×128 image. -/
theorem read_png_file_vector_spec_witness :
    ((List.replicate 128 (List.replicate 128 (0 : ℚ))).length = HEIGHT ∧
      ∀ r ∈ List.replicate 128 (List.replicate 128 (0 : ℚ)), r.length = WIDTH) ∧
    ((read_png_file (some (List.replicate 128 (List.replicate 128 (0 : ℚ)))) true).1 = 0 ∧
    (read_png_file (some (List.replicate 128 (List.replicate 128 (0 : ℚ)))) true).2.1 =
      features (List.replicate 128 (List.replicate 128 (0 : ℚ))) ++
      metadata (List.replicate 128 (List.replicate 128 (0 : ℚ))) ∧
    (features (List.replicate 128 (List.replicate 128 (0 : ℚ)))).length =
      FEATURE_QTT * AREA_IMG ∧
    (metadata (List.replicate 128 (List.replicate 128 (0 : ℚ)))).length = METADATA_QTT ∧
    (read_png_file (some (List.replicate 128 (List.replicate 128 (0 : ℚ)))) true).2.1.length =
      INPUT_QTT ∧
    FEATURE_QTT * AREA_IMG = 196 ∧ METADATA_QTT = 60 ∧ INPUT_QTT = 256 ∧
    DIM_IMGL = 14 ∧
    (read_png_file (some (List.replicate 128 (List.replicate 128 (0 : ℚ)))) true).2.1 =
      (read_png_file (some (List.replicate 128 (List.replicate 128 (0 : ℚ)))) false).2.1) :=
  have h : (List.replicate 128 (List.replicate 128 (0 : ℚ))).length = HEIGHT ∧
      ∀ r ∈ List.replicate 128 (List.replicate 128 (0 : ℚ)), r.length = WIDTH := by
    refine ⟨by simp [HEIGHT], ?_⟩
    intro r hr
    rw [List.eq_of_mem_replicate hr]
    simp [WIDTH]
  ⟨h, read_png_file_vector_spec (List.replicate 128 (List.replicate 128 (0 : ℚ))) true false h⟩

/-- Claim C8: for every file name, `read_png_file` returns 0 exactly when
the file is successfully read and decoded as a PNG of the expected 128×128
resolution; when the file cannot be decoded or its resolution does not
match, it returns a nonzero error value and reports a diagnostic error
message. -/
theorem read_png_file_status_spec (img : Option (List (List ℚ))) (verbose : Bool) :
    ((read_png_file img verbose).1 = 0 ↔
      ∃ px, img = some px ∧ px.length = HEIGHT ∧ ∀ r ∈ px, r.length = WIDTH) ∧
    ((read_png_file img verbose).1 ≠ 0 →
      (read_png_file img verbose).2.2 ≠ none) := by
  match img with
  | none =>
    refine ⟨?_, by simp [read_png_file]⟩
    simp [read_png_file]
  | some px =>
    by_cases h : px.length = HEIGHT ∧ ∀ r ∈ px, r.length = WIDTH
    · refine ⟨?_, ?_⟩
      · simp only [read_png_file, if_pos h]
        simp only [true_iff]
        exact ⟨px, rfl, h⟩
      · simp only [read_png_file, if_pos h]
        intro hcontra
        exact absurd rfl hcontra
    · refine ⟨?_, ?_⟩
      · simp only [read_png_file, if_neg h]
        constructor
        · intro hcontra
          norm_num at hcontra
        · rintro ⟨px', hpx', hlen⟩
          rw [Option.some_inj] at hpx'
          subst hpx'
          exact (h hlen).elim
      · simp [read_png_file, if_neg h]

/-! ## Feedforward engine

The assembled topology is modelled as the list of networks in declaration
order, which for an assembled (validated, acyclic) topology is also the
dependency order in which `run` computes them.  Layer parameters are real
matrices/vectors represented as lists. -/

/-- One layer of a network: its weight matrix (one row of incoming weights
per neuron) and its bias vector. -/
structure Layer where
  weights : List (List ℝ)
  bias : List ℝ

/-- One assembled network of the topology, mirroring `struct
create_network` (header lines 58-62) with its allocated layers: `source`
specifies whether the net receives inputs from convolution, and `output` is
the index of the net that receives this net's output (-1 indicates that the
output is the last layer of the network). -/
structure Net where
  layers : List Layer
  source : Bool
  output : ℤ

/-- Default layer for out-of-range `getD` access. -/
def default_layer : Layer := ⟨[], []⟩

/-- Default net for out-of-range `getD` access. -/
def default_net : Net := ⟨[], false, -1⟩

/-- Dot product of two equally long real vectors. -/
noncomputable def dot (xs ys : List ℝ) : ℝ :=
  (List.zipWith (fun a b => a * b) xs ys).sum

/-- Modelled from the spec: the affine part of one layer,
`weight_matrix · input + bias`, element-wise by rows. -/
noncomputable def affine (l : Layer) (x : List ℝ) : List ℝ :=
  List.zipWith (fun a b => a + b) (l.weights.map (fun row => dot row x)) l.bias

/-- Modelled from the spec: one layer's output —
`ACTIVATION_FN(weight_matrix · input + bias)` applied element-wise, the
nonlinearity omitted when `act` is false (the terminal network's final
layer). -/
noncomputable def layer_forward (act : Bool) (l : Layer) (x : List ℝ) : List ℝ :=
  if act then (affine l x).map ACTIVATION_FN else affine l x

/-- Modelled from the spec: the bodies of `run` and its helpers are not in
the sources.  The sequence of per-layer activation vectors of one network
on input `x`: every layer applies the activation function except the last
layer when `terminal` is true. -/
noncomputable def net_activations (terminal : Bool) : List Layer → List ℝ → List (List ℝ)
  | [], _ => []
  | [l], x => [layer_forward (!terminal) l x]
  | l :: l' :: ls, x =>
    let y := layer_forward true l x
    y :: net_activations terminal (l' :: ls) y

/-- The output of one network: its final layer's activation vector. -/
noncomputable def net_forward (terminal : Bool) (ls : List Layer) (x : List ℝ) : List ℝ :=
  (net_activations terminal ls x).getLastD x

/-- Modelled from the spec: the first `k` networks' output vectors, in
declaration (dependency) order.  Network `j` reads `img_view` when it is a
source net, and otherwise the concatenation, in declaration order, of the
outputs of the nets whose `output` link is `j`; it is computed as terminal
(final layer linear) exactly when its own `output` link is the sentinel
`-1`. -/
noncomputable def run_outs_aux (nets : List Net) (img : List ℝ) : ℕ → List (List ℝ)
  | 0 => []
  | j + 1 =>
    let outs := run_outs_aux nets img j
    let nt := nets.getD j default_net
    let input := if nt.source then img
      else (((List.range j).filter
              (fun i => (nets.getD i default_net).output = (j : ℤ))).map
            (fun i => outs.getD i [])).flatten
    outs ++ [net_forward (decide (nt.output = -1)) nt.layers input]

/-- All networks' output vectors of one forward pass. -/
noncomputable def run_outs (nets : List Net) (img : List ℝ) : List (List ℝ) :=
  run_outs_aux nets img nets.length

/-- The input vector that the forward pass feeds to network `j`:
`img_view` for a source net, otherwise the concatenation, in declaration
order, of the outputs of the nets linking to `j`. -/
noncomputable def net_input (nets : List Net) (img : List ℝ) (j : ℕ) : List ℝ :=
  if (nets.getD j default_net).source then img
  else (((List.range j).filter
          (fun i => (nets.getD i default_net).output = (j : ℤ))).map
        (fun i => (run_outs nets img).getD i [])).flatten

/-- Modelled from the spec: `run` computes the feedforward pass on
`img_view` and `network_output` receives the terminal network's final-layer
activations. -/
noncomputable def run (nets : List Net) (img : List ℝ) : List ℝ :=
  (run_outs nets img).getD (nets.findIdx (fun nt => nt.output == -1)) []

theorem getD_append_lt {α : Type _} (l l' : List α) (i : ℕ) (d : α) (h : i < l.length) :
    (l ++ l').getD i d = l.getD i d := by
  simp [List.getD, List.getElem?_append_left h]

theorem getD_append_self {α : Type _} (l : List α) (e d : α) :
    (l ++ [e]).getD l.length d = e := by
  simp [List.getD, List.getElem?_append_right (le_refl l.length)]

theorem run_outs_aux_succ (nets : List Net) (img : List ℝ) (j : ℕ) :
    run_outs_aux nets img (j + 1) =
      run_outs_aux nets img j ++
        [net_forward (decide ((nets.getD j default_net).output = -1))
          (nets.getD j default_net).layers
          (if (nets.getD j default_net).source then img
           else (((List.range j).filter
                   (fun i => (nets.getD i default_net).output = (j : ℤ))).map
                 (fun i => (run_outs_aux nets img j).getD i [])).flatten)] := rfl

theorem run_outs_aux_length (nets : List Net) (img : List ℝ) :
    ∀ k, (run_outs_aux nets img k).length = k := by
  intro k
  induction k with
  | zero => rfl
  | succ j ih =>
    rw [run_outs_aux_succ, List.length_append, ih]
    rfl

theorem run_outs_aux_stable (nets : List Net) (img : List ℝ) :
    ∀ k i, i < k →
      (run_outs_aux nets img k).getD i [] = (run_outs_aux nets img (i + 1)).getD i [] := by
  intro k
  induction k with
  | zero => omega
  | succ j ih =>
    intro i hi
    rcases Nat.lt_succ_iff_lt_or_eq.mp hi with hlt | heq
    · rw [run_outs_aux_succ,
        getD_append_lt _ _ _ _ (by rw [run_outs_aux_length]; exact hlt)]
      exact ih i hlt
    · rw [heq]

theorem net_activations_length (t : Bool) :
    ∀ (ls : List Layer) (x : List ℝ), (net_activations t ls x).length = ls.length := by
  intro ls
  induction ls with
  | nil => intro x; rfl
  | cons l ls ih =>
    intro x
    match ls with
    | [] => rfl
    | l' :: ls' =>
      show (_ :: net_activations t (l' :: ls') _).length = _
      rw [List.length_cons, ih]
      rfl

/-- Per-layer characterization of the forward pass inside one network:
layer `i` computes `layer_forward` of the previous activation vector (the
net's input for the first layer), with the nonlinearity applied unless the
net is terminal and `i` is its final layer. -/
theorem net_activations_getD (t : Bool) :
    ∀ (ls : List Layer) (x : List ℝ) (i : ℕ), i < ls.length →
      (net_activations t ls x).getD i [] =
        layer_forward (!(t && decide (i = ls.length - 1)))
          (ls.getD i default_layer)
          (if i = 0 then x else (net_activations t ls x).getD (i - 1) []) := by
  intro ls
  induction ls with
  | nil =>
    intro x i hi
    simp at hi
  | cons l ls ih =>
    intro x i hi
    match ls, i with
    | [], 0 =>
      simp [net_activations]
    | [], i + 1 =>
      simp at hi
    | l' :: ls', 0 =>
      show ((layer_forward true l x) :: _).getD 0 [] = _
      simp [List.length_cons]
    | l' :: ls', i + 1 =>
      have hi' : i < (l' :: ls').length := by
        simp only [List.length_cons] at hi ⊢
        omega
      have hstep : (net_activations t (l :: l' :: ls') x).getD (i + 1) [] =
          (net_activations t (l' :: ls') (layer_forward true l x)).getD i [] := by
        show ((layer_forward true l x) :: _).getD (i + 1) [] = _
        rw [List.getD_cons_succ]
      rw [hstep, ih (layer_forward true l x) i hi']
      have hdec : decide (i = (l' :: ls').length - 1)
          = decide (i + 1 = (l :: l' :: ls').length - 1) := by
        rw [decide_eq_decide]
        simp only [List.length_cons]
        omega
      have hnth : (l' :: ls').getD i default_layer
          = (l :: l' :: ls').getD (i + 1) default_layer := by
        rw [List.getD_cons_succ]
      rw [hdec, hnth]
      congr 1
      rw [if_neg (by omega : ¬(i + 1 = 0)), Nat.add_sub_cancel]
      match i with
      | 0 =>
        rw [if_pos rfl]
        show layer_forward true l x
            = ((layer_forward true l x) ::
                net_activations t (l' :: ls') (layer_forward true l x)).getD 0 []
        rw [List.getD_cons_zero]
      | i'' + 1 =>
        rw [if_neg (by omega : ¬(i'' + 1 = 0))]
        show (net_activations t (l' :: ls') (layer_forward true l x)).getD (i'' + 1 - 1) []
            = ((layer_forward true l x) ::
                net_activations t (l' :: ls') (layer_forward true l x)).getD (i'' + 1) []
        rw [List.getD_cons_succ, Nat.add_sub_cancel]

/-- Each entry of `run_outs` is the corresponding network's forward result
on its own concatenated input vector. -/
theorem run_outs_getD (nets : List Net) (img : List ℝ) (j : ℕ) (hj : j < nets.length) :
    (run_outs nets img).getD j [] =
      net_forward (decide ((nets.getD j default_net).output = -1))
        (nets.getD j default_net).layers (net_input nets img j) := by
  have hinput : (if (nets.getD j default_net).source then img
      else (((List.range j).filter
              (fun i => (nets.getD i default_net).output = (j : ℤ))).map
            (fun i => (run_outs_aux nets img j).getD i [])).flatten)
      = net_input nets img j := by
    rw [net_input]
    by_cases hs : (nets.getD j default_net).source
    · rw [if_pos hs, if_pos hs]
    · rw [if_neg hs, if_neg hs]
      congr 1
      apply List.map_congr_left
      intro i hi
      have hij : i < j := List.mem_range.mp (List.mem_filter.mp hi).1
      rw [run_outs_aux_stable nets img j i hij, run_outs,
        run_outs_aux_stable nets img nets.length i (by omega)]
  have hgen : ∀ (l : List (List ℝ)) (e : List ℝ), l.length = j →
      (l ++ [e]).getD j [] = e := by
    intro l e hl
    rw [← hl]
    exact getD_append_self l e []
  rw [run_outs, run_outs_aux_stable nets img nets.length j hj, run_outs_aux_succ,
    hgen _ _ (run_outs_aux_length nets img j), hinput]

theorem layer_forward_split (A B : Prop) [Decidable A] [Decidable B]
    (l : Layer) (x : List ℝ) :
    layer_forward (!(decide A && decide B)) l x =
      if A ∧ B then affine l x else (affine l x).map ACTIVATION_FN := by
  by_cases hA : A <;> by_cases hB : B <;> simp [layer_forward, hA, hB]

/-- Claim C1: for every assembled topology with fixed parameters and every
input vector of the expected length, the feedforward pass `run` computes
each layer's output as `ACTIVATION_FN(weight_matrix · input + bias)`
applied element-wise, where `ACTIVATION_FN` is tanh, for every layer except
the final layer of the terminal network, which omits the nonlinearity; the
terminal network's final-layer activations are written to
`network_output`.  Conjunct one gives the per-layer formula inside network
`j` (whose input is `img_view` for a source net, else the concatenation of
its feeders' outputs); conjunct two says network `j`'s recorded output is
its final layer's activations; conjunct three says `network_output`
(= `run`) receives the output of the first net whose output link is the
terminal sentinel `-1`. -/
theorem run_feedforward_spec (nets : List Net) (img : List ℝ) (j : ℕ)
    (hj : j < nets.length) (i : ℕ)
    (hi : i < (nets.getD j default_net).layers.length) :
    ((net_activations (decide ((nets.getD j default_net).output = -1))
        (nets.getD j default_net).layers (net_input nets img j)).getD i [] =
      (if (nets.getD j default_net).output = -1 ∧
          i = (nets.getD j default_net).layers.length - 1 then
        affine ((nets.getD j default_net).layers.getD i default_layer)
          (if i = 0 then net_input nets img j
           else (net_activations (decide ((nets.getD j default_net).output = -1))
                  (nets.getD j default_net).layers (net_input nets img j)).getD (i - 1) [])
      else
        (affine ((nets.getD j default_net).layers.getD i default_layer)
          (if i = 0 then net_input nets img j
           else (net_activations (decide ((nets.getD j default_net).output = -1))
                  (nets.getD j default_net).layers (net_input nets img j)).getD (i - 1) [])).map
          ACTIVATION_FN)) ∧
    (run_outs nets img).getD j [] =
      net_forward (decide ((nets.getD j default_net).output = -1))
        (nets.getD j default_net).layers (net_input nets img j) ∧
    (((nets.getD j default_net).output = -1 ∧
        ∀ k, k < j → (nets.getD k default_net).output ≠ -1) →
      run nets img =
        net_forward true (nets.getD j default_net).layers (net_input nets img j)) := by
  refine ⟨?_, run_outs_getD nets img j hj, ?_⟩
  · rw [net_activations_getD (decide ((nets.getD j default_net).output = -1))
      (nets.getD j default_net).layers (net_input nets img j) i hi]
    exact layer_forward_split _ _ _ _
  · rintro ⟨hterm, hfirst⟩
    have hfind : nets.findIdx (fun nt => nt.output == -1) = j := by
      rw [List.findIdx_eq hj]
      have hg : nets.getD j default_net = nets[j] :=
        List.getD_eq_getElem nets default_net hj
      refine ⟨?_, ?_⟩
      · rw [← hg]
        exact beq_iff_eq.mpr hterm
      · intro k hk
        have hgk : nets.getD k default_net = nets[k] :=
          List.getD_eq_getElem nets default_net (by omega)
        rw [← hgk]
        exact beq_eq_false_iff_ne.mpr (hfirst k hk)
    have hdec : decide ((nets.getD j default_net).output = -1) = true :=
      decide_eq_true hterm
    rw [run, hfind, run_outs_getD nets img j hj, hdec]

/-- A concrete one-net topology for the C1 witness: a single source net
whose output link is the terminal sentinel, with one 1×1 layer. -/
noncomputable def witness_net : Net := ⟨[⟨[[1]], [0]⟩], true, -1⟩

/-- Witness for C1: the feedforward characterization at the one-net
topology `[witness_net]` on input `[1]`, net index 0, layer index 0. -/
theorem run_feedforward_spec_witness :
    0 < ([witness_net] : List Net).length ∧
    0 < (([witness_net] : List Net).getD 0 default_net).layers.length ∧
    (((net_activations (decide ((([witness_net] : List Net).getD 0 default_net).output = -1))
        (([witness_net] : List Net).getD 0 default_net).layers
        (net_input [witness_net] [1] 0)).getD 0 [] =
      (if (([witness_net] : List Net).getD 0 default_net).output = -1 ∧
          0 = (([witness_net] : List Net).getD 0 default_net).layers.length - 1 then
        affine ((([witness_net] : List Net).getD 0 default_net).layers.getD 0 default_layer)
          (if 0 = 0 then net_input [witness_net] [1] 0
           else (net_activations
                  (decide ((([witness_net] : List Net).getD 0 default_net).output = -1))
                  (([witness_net] : List Net).getD 0 default_net).layers
                  (net_input [witness_net] [1] 0)).getD (0 - 1) [])
      else
        (affine ((([witness_net] : List Net).getD 0 default_net).layers.getD 0 default_layer)
          (if 0 = 0 then net_input [witness_net] [1] 0
           else (net_activations
                  (decide ((([witness_net] : List Net).getD 0 default_net).output = -1))
                  (([witness_net] : List Net).getD 0 default_net).layers
                  (net_input [witness_net] [1] 0)).getD (0 - 1) [])).map
          ACTIVATION_FN)) ∧
    (run_outs [witness_net] [1]).getD 0 [] =
      net_forward (decide ((([witness_net] : List Net).getD 0 default_net).output = -1))
        (([witness_net] : List Net).getD 0 default_net).layers
        (net_input [witness_net] [1] 0) ∧
    (((([witness_net] : List Net).getD 0 default_net).output = -1 ∧
        ∀ k, k < 0 → (([witness_net] : List Net).getD k default_net).output ≠ -1) →
      run [witness_net] [1] =
        net_forward true (([witness_net] : List Net).getD 0 default_net).layers
          (net_input [witness_net] [1] 0))) :=
  ⟨by simp, by simp [witness_net],
    run_feedforward_spec [witness_net] [1] 0 (by simp) 0 (by simp [witness_net])⟩

/-! ## Weight persistence: `save_weights` / `load_weights`

The `weights` file I/O itself is out of scope (an opaque byte stream); the
stream is modelled as a `List ℚ` of scalar records in the spec's fixed,
versionless layout: per network in declaration order, the structural
metadata (layer count, layer sizes, input width, source flag, output link),
then per layer the row-major flattened weight matrix followed by the bias
vector. -/

/-- One persisted layer: its weight matrix (rows of incoming weights, one
row per neuron) and its bias vector, over exact rationals. -/
structure SavedLayer where
  weights : List (List ℚ)
  bias : List ℚ
deriving DecidableEq

/-- One persisted network, mirroring `struct create_network`: its declared
input width, source flag, output link, and its layers (the layer-size
sequence is the list of bias lengths). -/
structure SavedNet where
  num_input : ℕ
  source : Bool
  output : ℤ
  layers : List SavedLayer
deriving DecidableEq

/-- Structural well-formedness of a layer list against an incoming
dimension: each layer has one weight row per neuron (per bias entry) and
each row as many columns as the previous layer's neuron count (or the
network's declared input width for the first layer). -/
def layers_wf : ℕ → List SavedLayer → Bool
  | _, [] => true
  | d, l :: ls =>
    (l.weights.length == l.bias.length) &&
    l.weights.all (fun row => row.length == d) &&
    layers_wf l.bias.length ls

/-- Structural well-formedness of an assembled topology: every net's layer
storage is sized consistently with its declared dimensions. -/
def topology_wf (nets : List SavedNet) : Bool :=
  nets.all (fun nt => layers_wf nt.num_input nt.layers)

/-- Reads one natural number record from the stream. -/
def read_nat : List ℚ → Option (ℕ × List ℚ)
  | [] => none
  | q :: rest => if q.den = 1 ∧ 0 ≤ q.num then some (q.num.toNat, rest) else none

/-- Reads one integer record from the stream. -/
def read_int : List ℚ → Option (ℤ × List ℚ)
  | [] => none
  | q :: rest => if q.den = 1 then some (q.num, rest) else none

/-- Reads one boolean flag record from the stream. -/
def read_bool : List ℚ → Option (Bool × List ℚ)
  | [] => none
  | q :: rest =>
    if q = 1 then some (true, rest)
    else if q = 0 then some (false, rest) else none

/-- Reads `k` scalar records (a vector) from the stream. -/
def read_vec : ℕ → List ℚ → Option (List ℚ × List ℚ)
  | 0, s => some ([], s)
  | _ + 1, [] => none
  | k + 1, q :: rest =>
    match read_vec k rest with
    | none => none
    | some (v, s) => some (q :: v, s)

/-- Reads a `rows × cols` matrix, row-major, from the stream. -/
def read_mat : ℕ → ℕ → List ℚ → Option (List (List ℚ) × List ℚ)
  | 0, _, s => some ([], s)
  | r + 1, cols, s =>
    match read_vec cols s with
    | none => none
    | some (row, s1) =>
      match read_mat r cols s1 with
      | none => none
      | some (m, s2) => some (row :: m, s2)

/-- Reads `k` natural-number records (the layer-size sequence). -/
def read_sizes : ℕ → List ℚ → Option (List ℕ × List ℚ)
  | 0, s => some ([], s)
  | k + 1, s =>
    match read_nat s with
    | none => none
    | some (n, s1) =>
      match read_sizes k s1 with
      | none => none
      | some (v, s2) => some (n :: v, s2)

/-- Reads the layers of one network given the incoming dimension and the
declared layer-size sequence: per layer the flattened weight matrix
(row-major) then the bias vector. -/
def read_layers : ℕ → List ℕ → List ℚ → Option (List SavedLayer × List ℚ)
  | _, [], s => some ([], s)
  | d, sz :: sizes, s =>
    match read_mat sz d s with
    | none => none
    | some (w, s1) =>
      match read_vec sz s1 with
      | none => none
      | some (b, s2) =>
        match read_layers sz sizes s2 with
        | none => none
        | some (ls, s3) => some (⟨w, b⟩ :: ls, s3)

/-- Reads one network: layer count, layer sizes, input width, source flag,
output link, then the layer payload. -/
def read_net (s : List ℚ) : Option (SavedNet × List ℚ) :=
  match read_nat s with
  | none => none
  | some (nl, s1) =>
    match read_sizes nl s1 with
    | none => none
    | some (sizes, s2) =>
      match read_nat s2 with
      | none => none
      | some (ni, s3) =>
        match read_bool s3 with
        | none => none
        | some (src, s4) =>
          match read_int s4 with
          | none => none
          | some (out, s5) =>
            match read_layers ni sizes s5 with
            | none => none
            | some (ls, s6) => some (⟨ni, src, out, ls⟩, s6)

/-- Reads `k` networks in declaration order. -/
def read_nets : ℕ → List ℚ → Option (List SavedNet × List ℚ)
  | 0, s => some ([], s)
  | k + 1, s =>
    match read_net s with
    | none => none
    | some (nt, s1) =>
      match read_nets k s1 with
      | none => none
      | some (nets, s2) => some (nt :: nets, s2)

/-- Modelled from the spec: the body of `save_weights` is not in the
sources.  Serializes one layer: the row-major flattened weight matrix
followed by the bias vector. -/
def save_layer (l : SavedLayer) : List ℚ :=
  l.weights.flatten ++ l.bias

/-- Modelled from the spec: serializes one network — layer count, layer
sizes, input width, source flag, output link, then the layer payloads. -/
def save_net (nt : SavedNet) : List ℚ :=
  ((nt.layers.length : ℚ) ::
    nt.layers.map (fun l => (l.bias.length : ℚ))) ++
  [(nt.num_input : ℚ), if nt.source then 1 else 0, (nt.output : ℚ)] ++
  (nt.layers.map save_layer).flatten

/-- Modelled from the spec: serializes all networks (net count, then each
net) in declaration order to the `weights` stream. -/
def save_weights (nets : List SavedNet) : List ℚ :=
  (nets.length : ℚ) :: (nets.map save_net).flatten

/-- Modelled from the spec: the body of `load_weights` is not in the
sources.  Deserializes the `weights` stream, reconstructing the topology
directly (no separate `init_net_topology` call); fails (`none`) on a
truncated or inconsistent stream. -/
def load_weights (s : List ℚ) : Option (List SavedNet) :=
  match read_nat s with
  | none => none
  | some (n, s1) =>
    match read_nets n s1 with
    | none => none
    | some (nets, s2) => if s2 = [] then some nets else none

theorem read_nat_cast (n : ℕ) (rest : List ℚ) :
    read_nat ((n : ℚ) :: rest) = some (n, rest) := by
  simp [read_nat]

theorem read_int_cast (z : ℤ) (rest : List ℚ) :
    read_int ((z : ℚ) :: rest) = some (z, rest) := by
  simp [read_int]

theorem read_bool_enc (b : Bool) (rest : List ℚ) :
    read_bool ((if b then (1 : ℚ) else 0) :: rest) = some (b, rest) := by
  cases b <;> simp [read_bool]

theorem read_vec_append (v rest : List ℚ) :
    read_vec v.length (v ++ rest) = some (v, rest) := by
  induction v with
  | nil => rfl
  | cons q v ih =>
    show read_vec (v.length + 1) (q :: (v ++ rest)) = _
    rw [read_vec, ih]

theorem read_mat_append (cols : ℕ) (m : List (List ℚ)) (rest : List ℚ)
    (h : ∀ row ∈ m, row.length = cols) :
    read_mat m.length cols (m.flatten ++ rest) = some (m, rest) := by
  induction m with
  | nil => rfl
  | cons row m ih =>
    show read_mat (m.length + 1) cols (row ++ m.flatten ++ rest) = _
    have hrow : row.length = cols := h row (List.mem_cons_self row m)
    have hv : read_vec cols (row ++ (m.flatten ++ rest))
        = some (row, m.flatten ++ rest) := by
      rw [← hrow]
      exact read_vec_append row _
    rw [read_mat, List.append_assoc, hv]
    show (match read_mat m.length cols (m.flatten ++ rest) with
      | none => none
      | some (m2, s2) => some (row :: m2, s2)) = some (row :: m, rest)
    rw [ih (fun r hr => h r (List.mem_cons_of_mem row hr))]

theorem read_sizes_append (sizes : List ℕ) (rest : List ℚ) :
    read_sizes sizes.length ((sizes.map (fun n : ℕ => (n : ℚ))) ++ rest)
      = some (sizes, rest) := by
  induction sizes with
  | nil => rfl
  | cons n sizes ih =>
    show read_sizes (sizes.length + 1)
        ((n : ℚ) :: ((sizes.map (fun k : ℕ => (k : ℚ))) ++ rest)) = some (n :: sizes, rest)
    rw [read_sizes, read_nat_cast]
    show (match read_sizes sizes.length ((sizes.map (fun k : ℕ => (k : ℚ))) ++ rest) with
      | none => none
      | some (v, s2) => some (n :: v, s2)) = some (n :: sizes, rest)
    rw [ih]

theorem read_layers_append (ls : List SavedLayer) :
    ∀ (d : ℕ) (rest : List ℚ), layers_wf d ls = true →
      read_layers d (ls.map (fun l => l.bias.length))
        ((ls.map save_layer).flatten ++ rest) = some (ls, rest) := by
  induction ls with
  | nil =>
    intro d rest h
    rfl
  | cons l ls ih =>
    intro d rest h
    rw [layers_wf, Bool.and_eq_true, Bool.and_eq_true] at h
    obtain ⟨⟨hrows, hcols⟩, hrec⟩ := h
    have hrows' : l.weights.length = l.bias.length := by
      simpa using hrows
    have hcols' : ∀ row ∈ l.weights, row.length = d := by
      intro row hr
      simpa using List.all_eq_true.mp hcols row hr
    have hm : read_mat l.bias.length d
        (l.weights.flatten ++ (l.bias ++ ((ls.map save_layer).flatten ++ rest)))
        = some (l.weights, l.bias ++ ((ls.map save_layer).flatten ++ rest)) := by
      rw [← hrows']
      exact read_mat_append d l.weights _ hcols'
    have hb : read_vec l.bias.length
        (l.bias ++ ((ls.map save_layer).flatten ++ rest))
        = some (l.bias, (ls.map save_layer).flatten ++ rest) :=
      read_vec_append l.bias _
    have hstream : ((save_layer l ++ (ls.map save_layer).flatten) ++ rest)
        = l.weights.flatten ++ (l.bias ++ ((ls.map save_layer).flatten ++ rest)) := by
      rw [save_layer]
      simp [List.append_assoc]
    show read_layers d (l.bias.length :: ls.map (fun l => l.bias.length))
        ((save_layer l ++ (ls.map save_layer).flatten) ++ rest) = some (l :: ls, rest)
    rw [read_layers, hstream, hm]
    show (match read_vec l.bias.length (l.bias ++ ((ls.map save_layer).flatten ++ rest)) with
      | none => none
      | some (b, s2) =>
        match read_layers l.bias.length (ls.map (fun l => l.bias.length)) s2 with
        | none => none
        | some (ls2, s3) => some (⟨l.weights, b⟩ :: ls2, s3)) = some (l :: ls, rest)
    rw [hb]
    show (match read_layers l.bias.length (ls.map (fun l => l.bias.length))
        ((ls.map save_layer).flatten ++ rest) with
      | none => none
      | some (ls2, s3) => some (⟨l.weights, l.bias⟩ :: ls2, s3)) = some (l :: ls, rest)
    rw [ih l.bias.length rest hrec]

theorem read_net_append (nt : SavedNet) (rest : List ℚ)
    (h : layers_wf nt.num_input nt.layers = true) :
    read_net (save_net nt ++ rest) = some (nt, rest) := by
  have hsizes : nt.layers.map (fun l => ((l.bias.length : ℕ) : ℚ))
      = (nt.layers.map (fun l => l.bias.length)).map (fun k : ℕ => (k : ℚ)) := by
    rw [List.map_map]
    rfl
  have hstream : save_net nt ++ rest
      = (nt.layers.length : ℚ) ::
        (((nt.layers.map (fun l => l.bias.length)).map (fun k : ℕ => (k : ℚ))) ++
          ((nt.num_input : ℚ) :: (if nt.source then (1 : ℚ) else 0) ::
            ((nt.output : ℚ) :: ((nt.layers.map save_layer).flatten ++ rest)))) := by
    rw [save_net, ← hsizes]
    simp [List.append_assoc]
  have hcount : nt.layers.length = (nt.layers.map (fun l => l.bias.length)).length :=
    (List.length_map _ _).symm
  rw [hstream, read_net, read_nat_cast, hcount]
  show (match read_sizes ((nt.layers.map (fun l => l.bias.length)).length)
      (((nt.layers.map (fun l => l.bias.length)).map (fun k : ℕ => (k : ℚ))) ++
        ((nt.num_input : ℚ) :: (if nt.source then (1 : ℚ) else 0) ::
          ((nt.output : ℚ) :: ((nt.layers.map save_layer).flatten ++ rest)))) with
    | none => none
    | some (sizes, s2) =>
      match read_nat s2 with
      | none => none
      | some (ni, s3) =>
        match read_bool s3 with
        | none => none
        | some (src, s4) =>
          match read_int s4 with
          | none => none
          | some (out, s5) =>
            match read_layers ni sizes s5 with
            | none => none
            | some (ls, s6) => some (⟨ni, src, out, ls⟩, s6)) = some (nt, rest)
  rw [read_sizes_append]
  show (match read_nat ((nt.num_input : ℚ) :: (if nt.source then (1 : ℚ) else 0) ::
      ((nt.output : ℚ) :: ((nt.layers.map save_layer).flatten ++ rest))) with
    | none => none
    | some (ni, s3) =>
      match read_bool s3 with
      | none => none
      | some (src, s4) =>
        match read_int s4 with
        | none => none
        | some (out, s5) =>
          match read_layers ni (nt.layers.map (fun l => l.bias.length)) s5 with
          | none => none
          | some (ls, s6) => some (⟨ni, src, out, ls⟩, s6)) = some (nt, rest)
  rw [read_nat_cast]
  show (match read_bool ((if nt.source then (1 : ℚ) else 0) ::
      ((nt.output : ℚ) :: ((nt.layers.map save_layer).flatten ++ rest))) with
    | none => none
    | some (src, s4) =>
      match read_int s4 with
      | none => none
      | some (out, s5) =>
        match read_layers nt.num_input (nt.layers.map (fun l => l.bias.length)) s5 with
        | none => none
        | some (ls, s6) => some (⟨nt.num_input, src, out, ls⟩, s6)) = some (nt, rest)
  rw [read_bool_enc]
  show (match read_int ((nt.output : ℚ) :: ((nt.layers.map save_layer).flatten ++ rest)) with
    | none => none
    | some (out, s5) =>
      match read_layers nt.num_input (nt.layers.map (fun l => l.bias.length)) s5 with
      | none => none
      | some (ls, s6) => some (⟨nt.num_input, nt.source, out, ls⟩, s6)) = some (nt, rest)
  rw [read_int_cast]
  show (match read_layers nt.num_input (nt.layers.map (fun l => l.bias.length))
      ((nt.layers.map save_layer).flatten ++ rest) with
    | none => none
    | some (ls, s6) => some (⟨nt.num_input, nt.source, nt.output, ls⟩, s6)) = some (nt, rest)
  rw [read_layers_append nt.layers nt.num_input rest h]

theorem read_nets_append (nets : List SavedNet) :
    ∀ rest : List ℚ, topology_wf nets = true →
      read_nets nets.length ((nets.map save_net).flatten ++ rest) = some (nets, rest) := by
  induction nets with
  | nil =>
    intro rest h
    rfl
  | cons nt nets ih =>
    intro rest h
    rw [topology_wf, List.all_cons, Bool.and_eq_true] at h
    obtain ⟨h1, h2⟩ := h
    show read_nets (nets.length + 1)
        ((save_net nt ++ (nets.map save_net).flatten) ++ rest) = some (nt :: nets, rest)
    rw [read_nets, List.append_assoc, read_net_append nt _ h1]
    show (match read_nets nets.length ((nets.map save_net).flatten ++ rest) with
      | none => none
      | some (nets2, s2) => some (nt :: nets2, s2)) = some (nt :: nets, rest)
    rw [ih rest h2]

/-- Claim C7: for every assembled topology, calling `save_weights` and then
`load_weights` reconstructs an equivalent topology: identical structural
metadata (layer sizes, source flags, output links) and bit-identical
weights and biases, without requiring a separate `init_net_topology` call
(the deserializer rebuilds the `SavedNet` records directly from the
stream). -/
theorem save_load_weights_roundtrip (nets : List SavedNet)
    (h : topology_wf nets = true) :
    load_weights (save_weights nets) = some nets := by
  rw [save_weights, load_weights, read_nat_cast]
  show (match read_nets nets.length (nets.map save_net).flatten with
    | none => none
    | some (nets2, s2) => if s2 = [] then some nets2 else none) = some nets
  have hnil : (nets.map save_net).flatten = (nets.map save_net).flatten ++ [] :=
    (List.append_nil _).symm
  rw [hnil, read_nets_append nets [] h]
  rfl

/-- Witness for C7: a one-net topology with a 2×2 layer. -/
theorem save_load_weights_roundtrip_witness :
    topology_wf [⟨2, true, -1, [⟨[[1, 2], [3, 4]], [5, 6]⟩]⟩] = true ∧
    load_weights (save_weights [⟨2, true, -1, [⟨[[1, 2], [3, 4]], [5, 6]⟩]⟩]) =
      some [⟨2, true, -1, [⟨[[1, 2], [3, 4]], [5, 6]⟩]⟩] :=
  ⟨by decide,
    save_load_weights_roundtrip [⟨2, true, -1, [⟨[[1, 2], [3, 4]], [5, 6]⟩]⟩] (by decide)⟩

/-! ## Topology assembly: `init_net_topology` validation

`struct create_network` (header lines 58-62) is mirrored directly; the
assembler's validation is modelled from the spec: every output link must be
the terminal sentinel `-1` or a valid index of another net, and following
output links from any net must reach the sentinel (acyclicity). -/

/-- Mirror of `struct create_network`: the layer-size sequence
(`neurons_per_layer`, with `num_layers` its length), the input width, the
source flag, and the output link (`-1` is the terminal sentinel). -/
structure create_network where
  neurons_per_layer : List ℕ
  num_input : ℕ
  source : Bool
  output : ℤ

/-- Default descriptor for out-of-range `getD` access. -/
def default_create : create_network := ⟨[], 0, false, -1⟩

/-- Modelled from the spec: an output link is valid when it is the
terminal sentinel `-1` or the index of another net in the list. -/
def valid_output_link (n : ℕ) (z : ℤ) : Bool :=
  z == -1 || (0 ≤ z && z < (n : ℤ))

/-- Modelled from the spec: following output links from net `i` reaches
the terminal sentinel within `fuel` steps, every intermediate link being in
range.  With `fuel = n` (the net count) this decides acyclicity. -/
def chain_ok (nets : List create_network) : ℕ → ℕ → Bool
  | 0, _ => false
  | fuel + 1, i =>
    if (nets.getD i default_create).output = -1 then true
    else if 0 ≤ (nets.getD i default_create).output ∧
        (nets.getD i default_create).output < (nets.length : ℤ) then
      chain_ok nets fuel (nets.getD i default_create).output.toNat
    else false

/-- Modelled from the spec: the body of `init_net_topology` is not in the
sources (the header declares it `void`; the spec's reported-diagnostic-plus
nonzero-status contract is modelled as `Except`).  Validates every output
link and the acyclicity of the link graph, and only then constructs the
topology; otherwise fails with a `ConfigurationError` diagnostic. -/
def init_net_topology (nets : List create_network) :
    Except String (List create_network) :=
  if (List.range nets.length).all
      (fun i => valid_output_link nets.length (nets.getD i default_create).output) then
    if (List.range nets.length).all (fun i => chain_ok nets nets.length i) then
      Except.ok nets
    else
      Except.error "ConfigurationError: cycle detected in output links"
  else
    Except.error "ConfigurationError: output link out of range"

/-- The link-following step function on net indices. -/
def link_step (nets : List create_network) (i : ℕ) : ℕ :=
  (nets.getD i default_create).output.toNat

theorem chain_ok_false_on_cycle (nets : List create_network) (i k : ℕ)
    (hk : 0 < k) (hcycle : (link_step nets)^[k] i = i)
    (hvalid : ∀ m, m < k →
      (nets.getD ((link_step nets)^[m] i) default_create).output ≠ -1 ∧
      0 ≤ (nets.getD ((link_step nets)^[m] i) default_create).output ∧
      (nets.getD ((link_step nets)^[m] i) default_create).output < (nets.length : ℤ)) :
    ∀ fuel j, (∃ m, m < k ∧ j = (link_step nets)^[m] i) →
      chain_ok nets fuel j = false := by
  intro fuel
  induction fuel with
  | zero =>
    intro j _
    rfl
  | succ f ih =>
    rintro j ⟨m, hm, rfl⟩
    obtain ⟨hne, hlo, hhi⟩ := hvalid m hm
    rw [chain_ok, if_neg hne, if_pos ⟨hlo, hhi⟩]
    have hnext : (nets.getD ((link_step nets)^[m] i) default_create).output.toNat
        = (link_step nets)^[m + 1] i := by
      rw [Function.iterate_succ_apply']
      rfl
    rw [hnext]
    apply ih
    by_cases hlast : m + 1 = k
    · refine ⟨0, hk, ?_⟩
      rw [hlast, hcycle]
      rfl
    · exact ⟨m + 1, by omega, rfl⟩

/-- Claim C9: for every topology specification in which some network's
output link is neither the terminal sentinel nor a valid index of another
network in the list, or in which the output links form a cycle,
`init_net_topology` fails with a ConfigurationError (modelled as a reported
diagnostic plus an error result) rather than constructing the topology. -/
theorem init_net_topology_rejects_invalid (nets : List create_network)
    (h : (∃ i, i < nets.length ∧
            (nets.getD i default_create).output ≠ -1 ∧
            ¬(0 ≤ (nets.getD i default_create).output ∧
              (nets.getD i default_create).output < (nets.length : ℤ))) ∨
         (∃ i k, i < nets.length ∧ 0 < k ∧ (link_step nets)^[k] i = i ∧
            ∀ m, m < k →
              (nets.getD ((link_step nets)^[m] i) default_create).output ≠ -1 ∧
              0 ≤ (nets.getD ((link_step nets)^[m] i) default_create).output ∧
              (nets.getD ((link_step nets)^[m] i) default_create).output
                < (nets.length : ℤ))) :
    ∃ e, init_net_topology nets = Except.error e := by
  rcases h with ⟨i, hi, hne, hrange⟩ | ⟨i, k, hi, hk, hcycle, hvalid⟩
  · refine ⟨"ConfigurationError: output link out of range", ?_⟩
    rw [init_net_topology, if_neg]
    intro hall
    have := List.all_eq_true.mp hall i (List.mem_range.mpr hi)
    rw [valid_output_link, Bool.or_eq_true, Bool.and_eq_true] at this
    rcases this with h1 | ⟨h2, h3⟩
    · exact hne (by simpa using h1)
    · exact hrange ⟨by simpa using h2, by simpa using h3⟩
  · by_cases hlinks : (List.range nets.length).all
        (fun i => valid_output_link nets.length (nets.getD i default_create).output) = true
    · refine ⟨"ConfigurationError: cycle detected in output links", ?_⟩
      rw [init_net_topology, if_pos hlinks, if_neg]
      intro hall
      have hchain := List.all_eq_true.mp hall i (List.mem_range.mpr hi)
      have hfalse := chain_ok_false_on_cycle nets i k hk hcycle hvalid
        nets.length i ⟨0, hk, rfl⟩
      rw [hchain] at hfalse
      exact Bool.noConfusion hfalse
    · refine ⟨"ConfigurationError: output link out of range", ?_⟩
      rw [init_net_topology, if_neg hlinks]

/-- Witness for C9: a one-net specification whose output link 5 is out of
range. -/
theorem init_net_topology_rejects_invalid_witness :
    ((∃ i, i < ([⟨[1], 1, true, 5⟩] : List create_network).length ∧
        (([⟨[1], 1, true, 5⟩] : List create_network).getD i default_create).output ≠ -1 ∧
        ¬(0 ≤ (([⟨[1], 1, true, 5⟩] : List create_network).getD i default_create).output ∧
          (([⟨[1], 1, true, 5⟩] : List create_network).getD i default_create).output
            < (([⟨[1], 1, true, 5⟩] : List create_network).length : ℤ))) ∨
     (∃ i k, i < ([⟨[1], 1, true, 5⟩] : List create_network).length ∧ 0 < k ∧
        (link_step [⟨[1], 1, true, 5⟩])^[k] i = i ∧
        ∀ m, m < k →
          (([⟨[1], 1, true, 5⟩] : List create_network).getD
              ((link_step [⟨[1], 1, true, 5⟩])^[m] i) default_create).output ≠ -1 ∧
          0 ≤ (([⟨[1], 1, true, 5⟩] : List create_network).getD
              ((link_step [⟨[1], 1, true, 5⟩])^[m] i) default_create).output ∧
          (([⟨[1], 1, true, 5⟩] : List create_network).getD
              ((link_step [⟨[1], 1, true, 5⟩])^[m] i) default_create).output
            < (([⟨[1], 1, true, 5⟩] : List create_network).length : ℤ))) ∧
    ∃ e, init_net_topology [⟨[1], 1, true, 5⟩] = Except.error e :=
  have h : (∃ i, i < ([⟨[1], 1, true, 5⟩] : List create_network).length ∧
      (([⟨[1], 1, true, 5⟩] : List create_network).getD i default_create).output ≠ -1 ∧
      ¬(0 ≤ (([⟨[1], 1, true, 5⟩] : List create_network).getD i default_create).output ∧
        (([⟨[1], 1, true, 5⟩] : List create_network).getD i default_create).output
          < (([⟨[1], 1, true, 5⟩] : List create_network).length : ℤ))) :=
    ⟨0, by decide, by decide, by decide⟩
  ⟨Or.inl h, init_net_topology_rejects_invalid [⟨[1], 1, true, 5⟩] (Or.inl h)⟩
